import Mathlib

/-!
Verification of the Galton-board simulator (`galton.py`).

The simulator is embedded shallowly:

* A `Galton` record holds the board configuration (`bins`, `rows`), exactly
  the attributes set by `Galton.__init__`; `mkGalton` mirrors the constructor
  (`rows = row_pairs * 2`).
* Positions are exact rationals (`ℚ`), matching the `Fraction` arithmetic of
  the source.
* The injected randomness strategies are modelled as value streams:
  `dirs : ℕ → ℚ` gives the value returned by the i-th call to
  `random_direction()`, and `binDraws : ℕ → ℚ` the value returned by
  `random_bin(bins)` for the k-th bead.  A draw counter is threaded through
  the computation so that the number of consumed samples is observable.
* Python's `int(...)` on a `Fraction` truncates toward zero; `ratTrunc`
  implements this as T-division of numerator by denominator.
* Python's `start or self.random_bin(self.bins)` treats `start = 0` (and
  `None`) as absent; `resolveStart` reproduces this.
* `run_bead` raising `ValueError("Bin position out of range")` is modelled
  with `Except String`.
-/

structure Galton where
  bins : ℤ
  rows : ℕ
  deriving Repr, DecidableEq

/-- `Galton.__init__`: stores `bins` and `rows = row_pairs * 2`. -/
def mkGalton (row_pairs : ℕ) (bins : ℤ) : Galton :=
  { bins := bins, rows := row_pairs * 2 }

/-- `Galton.is_valid`: `0 < position < self.bins + 1`. -/
def Galton.is_valid (g : Galton) (position : ℚ) : Bool :=
  decide (0 < position ∧ position < (g.bins : ℚ) + 1)

/-- `Galton.move_down`, with the value `d` drawn from `random_direction()`
passed explicitly: `position += d; if not is_valid: position -= d * 2`. -/
def Galton.move_down (g : Galton) (d : ℚ) (position : ℚ) : ℚ :=
  let tentative := position + d
  if g.is_valid tentative then tentative else tentative - d * 2

/-- One call of `move_down` against the direction stream: consumes the sample
at index `i` and advances the draw counter by one. -/
def Galton.move_down_draw (g : Galton) (dirs : ℕ → ℚ) (p : ℚ) (i : ℕ) : ℚ × ℕ :=
  (g.move_down (dirs i) p, i + 1)

/-- The `for _ in range(rows)` loop of `run_bead`: apply `move_down` `n`
times, threading the position and the draw counter. -/
def Galton.walkS (g : Galton) (dirs : ℕ → ℚ) : ℕ → ℚ × ℕ → ℚ × ℕ
  | 0, s => s
  | Nat.succ n, s => g.walkS dirs n (g.move_down_draw dirs s.1 s.2)

/-- Python `int(...)` on an exact rational: truncation toward zero
(`Fraction.__trunc__` is numerator T-divided by denominator). -/
def ratTrunc (q : ℚ) : ℤ :=
  Int.tdiv q.num (q.den : ℤ)

/-- `start or self.random_bin(self.bins)`: `None` and `0` are falsy, any
other value is used as given. -/
def resolveStart (start : Option ℚ) (draw : ℚ) : ℚ :=
  match start with
  | none => draw
  | some s => if s = 0 then draw else s

/-- `Galton.run_bead`: resolve the start, reject invalid positions, walk the
board `rows` times, truncate the final position to an integer bin.  `draw` is
the value `random_bin(self.bins)` would return for this bead, `i` the current
direction-draw counter; the result carries the bin and the new counter. -/
def Galton.run_bead (g : Galton) (dirs : ℕ → ℚ) (draw : ℚ) (start : Option ℚ)
    (i : ℕ) : Except String (ℤ × ℕ) :=
  let p := resolveStart start draw
  if g.is_valid p then
    let s := g.walkS dirs g.rows (p, i)
    Except.ok (ratTrunc s.1, s.2)
  else
    Except.error "Bin position out of range"

/-- The generator of `Galton.simulate`: run `n` more beads (bead index `k`,
direction counter `i`), collecting the terminal bins in order. -/
def Galton.simulateAux (g : Galton) (dirs binDraws : ℕ → ℚ) (start : Option ℚ) :
    ℕ → ℕ → ℕ → Except String (List ℤ × ℕ)
  | 0, _, i => Except.ok ([], i)
  | Nat.succ n, k, i =>
    match g.run_bead dirs (binDraws k) start i with
    | Except.error e => Except.error e
    | Except.ok (b, j) =>
      match g.simulateAux dirs binDraws start n (k + 1) j with
      | Except.error e => Except.error e
      | Except.ok (l, j2) => Except.ok (b :: l, j2)

/-- `Galton.simulate`: the multiset of the returned list is the `Counter`
the Python method builds. -/
def Galton.simulate (g : Galton) (dirs binDraws : ℕ → ℚ) (beads : ℕ)
    (start : Option ℚ) : Except String (List ℤ × ℕ) :=
  g.simulateAux dirs binDraws start beads 0 0

/-- Terminal bin of a `run_bead` result, forgetting the draw counter. -/
def binResult (r : Except String (ℤ × ℕ)) : Except String ℤ :=
  r.map Prod.fst

-- Basic lemmas about the embedding.

lemma is_valid_iff (g : Galton) (p : ℚ) :
    g.is_valid p = true ↔ 0 < p ∧ p < (g.bins : ℚ) + 1 := by
  simp [Galton.is_valid]

lemma ratTrunc_intCast (z : ℤ) : ratTrunc ((z : ℚ)) = z := by
  simp [ratTrunc, Rat.num_intCast, Rat.den_intCast, Int.tdiv_one]

lemma walkS_zero (g : Galton) (dirs : ℕ → ℚ) (s : ℚ × ℕ) :
    g.walkS dirs 0 s = s := rfl

lemma walkS_succ (g : Galton) (dirs : ℕ → ℚ) (n : ℕ) (p : ℚ) (i : ℕ) :
    g.walkS dirs (n + 1) (p, i)
      = g.walkS dirs n (g.move_down (dirs i) p, i + 1) := rfl

lemma walkS_snd (g : Galton) (dirs : ℕ → ℚ) :
    ∀ (n : ℕ) (p : ℚ) (i : ℕ), (g.walkS dirs n (p, i)).2 = i + n
  | 0, _, _ => rfl
  | Nat.succ n, p, i => by
    rw [walkS_succ]
    rw [walkS_snd g dirs n (g.move_down (dirs i) p) (i + 1)]
    omega

lemma walkS_add (g : Galton) (dirs : ℕ → ℚ) :
    ∀ (m n : ℕ) (s : ℚ × ℕ),
      g.walkS dirs (m + n) s = g.walkS dirs n (g.walkS dirs m s)
  | 0, n, s => by rw [Nat.zero_add, walkS_zero]
  | Nat.succ m, n, s => by
    have h : m.succ + n = (m + n).succ := by omega
    rw [h]
    show g.walkS dirs (m + n) (g.move_down_draw dirs s.1 s.2) = _
    rw [walkS_add g dirs m n (g.move_down_draw dirs s.1 s.2)]
    rfl

/-- Boundary containment for a single step: from a valid position, a
half-unit step followed by the reflection (if any) is again valid, as long
as the board has at least one bin. -/
lemma move_down_valid_aux (g : Galton) (h : 1 ≤ g.bins) (d p : ℚ)
    (hp : g.is_valid p = true) (hd : d = 1 / 2 ∨ d = -(1 / 2)) :
    g.is_valid (g.move_down d p) = true := by
  rw [is_valid_iff] at hp
  have hb : (1 : ℚ) ≤ (g.bins : ℚ) := by exact_mod_cast h
  unfold Galton.move_down
  by_cases hv : g.is_valid (p + d) = true
  · rw [if_pos hv]
    exact hv
  · have hv' : ¬ (0 < p + d ∧ p + d < (g.bins : ℚ) + 1) := by
      rw [← is_valid_iff]
      exact hv
    push_neg at hv'
    rw [if_neg hv]
    rw [is_valid_iff]
    rcases hd with rfl | rfl
    · rcases lt_or_le 0 (p + 1 / 2) with h0 | h0
      · have := hv' h0
        constructor <;> linarith
      · constructor <;> linarith
    · rcases lt_or_le 0 (p + -(1 / 2)) with h0 | h0
      · have := hv' h0
        constructor <;> linarith
      · constructor <;> linarith

lemma walkS_valid (g : Galton) (h : 1 ≤ g.bins) (dirs : ℕ → ℚ)
    (hd : ∀ j, dirs j = 1 / 2 ∨ dirs j = -(1 / 2)) :
    ∀ (n : ℕ) (p : ℚ) (i : ℕ), g.is_valid p = true →
      g.is_valid (g.walkS dirs n (p, i)).1 = true
  | 0, _, _, hp => hp
  | Nat.succ n, p, i, hp => by
    rw [walkS_succ]
    exact walkS_valid g h dirs hd n _ (i + 1)
      (move_down_valid_aux g h (dirs i) p hp (hd i))

/-- A half-unit step moves twice the position by exactly one integer unit,
reflected or not. -/
lemma move_down_half (g : Galton) (d p : ℚ) (m : ℤ)
    (hm : p * 2 = (m : ℚ)) (hd : d = 1 / 2 ∨ d = -(1 / 2)) :
    ∃ e : ℤ, (e = 1 ∨ e = -1) ∧ g.move_down d p * 2 = ((m + e : ℤ) : ℚ) := by
  unfold Galton.move_down
  by_cases hv : g.is_valid (p + d) = true
  · rw [if_pos hv]
    rcases hd with rfl | rfl
    · exact ⟨1, Or.inl rfl, by push_cast; linarith⟩
    · exact ⟨-1, Or.inr rfl, by push_cast; linarith⟩
  · rw [if_neg hv]
    rcases hd with rfl | rfl
    · exact ⟨-1, Or.inr rfl, by push_cast; linarith⟩
    · exact ⟨1, Or.inl rfl, by push_cast; linarith⟩

/-- Parity of the walk: twice the position stays integral, and its parity
after `n` rows is the starting parity shifted by `n`. -/
lemma walkS_parity (g : Galton) (dirs : ℕ → ℚ)
    (hd : ∀ j, dirs j = 1 / 2 ∨ dirs j = -(1 / 2)) :
    ∀ (n : ℕ) (p : ℚ) (i : ℕ) (m : ℤ), p * 2 = (m : ℚ) →
      ∃ mf : ℤ, (g.walkS dirs n (p, i)).1 * 2 = (mf : ℚ)
        ∧ (mf - m) % 2 = (n : ℤ) % 2
  | 0, p, i, m, hm => ⟨m, hm, by simp⟩
  | Nat.succ n, p, i, m, hm => by
    obtain ⟨e, he, hstep⟩ := move_down_half g (dirs i) p m hm (hd i)
    obtain ⟨mf, hmf, hpar⟩ :=
      walkS_parity g dirs hd n (g.move_down (dirs i) p) (i + 1) (m + e) hstep
    refine ⟨mf, by rw [walkS_succ]; exact hmf, ?_⟩
    have hn : ((n : ℤ) + 1) % 2 = ((Nat.succ n : ℕ) : ℤ) % 2 := by push_cast; ring_nf
    rcases he with rfl | rfl <;> omega

/-- Starting from a whole-bin position, an even number of rows ends on a
whole-bin position. -/
lemma walkS_int_of_even (g : Galton) (dirs : ℕ → ℚ)
    (hd : ∀ j, dirs j = 1 / 2 ∨ dirs j = -(1 / 2)) (t : ℕ) (z : ℤ) (i : ℕ) :
    ∃ w : ℤ, (g.walkS dirs (t * 2) (((z : ℚ), i))).1 = (w : ℚ) := by
  obtain ⟨mf, hmf, hpar⟩ :=
    walkS_parity g dirs hd (t * 2) ((z : ℚ)) i (2 * z) (by push_cast; ring)
  have heven : mf % 2 = 0 := by
    have h2 : ((t * 2 : ℕ) : ℤ) % 2 = 0 := by push_cast; omega
    omega
  obtain ⟨w, rfl⟩ : ∃ w : ℤ, mf = 2 * w := ⟨mf / 2, by omega⟩
  refine ⟨w, ?_⟩
  have : ((2 * w : ℤ) : ℚ) = 2 * (w : ℚ) := by push_cast; ring
  rw [this] at hmf
  linarith

lemma run_bead_of_valid (g : Galton) (dirs : ℕ → ℚ) (draw : ℚ)
    (start : Option ℚ) (i : ℕ)
    (h : g.is_valid (resolveStart start draw) = true) :
    g.run_bead dirs draw start i
      = Except.ok
          (ratTrunc (g.walkS dirs g.rows (resolveStart start draw, i)).1,
            i + g.rows) := by
  unfold Galton.run_bead
  rw [if_pos h]
  show Except.ok (ratTrunc (g.walkS dirs g.rows (resolveStart start draw, i)).1,
        (g.walkS dirs g.rows (resolveStart start draw, i)).2) = _
  rw [walkS_snd]

lemma run_bead_of_invalid (g : Galton) (dirs : ℕ → ℚ) (draw : ℚ)
    (start : Option ℚ) (i : ℕ)
    (h : ¬ g.is_valid (resolveStart start draw) = true) :
    g.run_bead dirs draw start i = Except.error "Bin position out of range" := by
  unfold Galton.run_bead
  rw [if_neg h]

/-- Any successfully returned bin of a board with evenly many rows, at least
one bin and a whole-bin resolved start lies in `[1, bins]`. -/
lemma run_bead_ok_range (g : Galton) (h1 : 1 ≤ g.bins)
    (heven : ∃ t, g.rows = t * 2) (dirs : ℕ → ℚ)
    (hd : ∀ j, dirs j = 1 / 2 ∨ dirs j = -(1 / 2)) (draw : ℚ)
    (start : Option ℚ) (i : ℕ) (b : ℤ) (j : ℕ)
    (hstart : ∃ z : ℤ, resolveStart start draw = (z : ℚ))
    (hok : g.run_bead dirs draw start i = Except.ok (b, j)) :
    1 ≤ b ∧ b ≤ g.bins := by
  obtain ⟨z, hz⟩ := hstart
  obtain ⟨t, ht⟩ := heven
  by_cases hv : g.is_valid (resolveStart start draw) = true
  · rw [run_bead_of_valid g dirs draw start i hv] at hok
    rw [Except.ok.injEq, Prod.mk.injEq] at hok
    obtain ⟨hb, hj⟩ := hok
    obtain ⟨w, hw⟩ := walkS_int_of_even g dirs hd t z i
    have hvf : g.is_valid (g.walkS dirs g.rows (resolveStart start draw, i)).1 = true :=
      walkS_valid g h1 dirs hd g.rows (resolveStart start draw) i hv
    rw [hz, ht, hw] at hvf
    rw [is_valid_iff] at hvf
    obtain ⟨hw1, hw2⟩ := hvf
    have hw1' : 0 < w := by exact_mod_cast hw1
    have hw2' : (w : ℚ) < ((g.bins + 1 : ℤ) : ℚ) := by push_cast; linarith
    have hw2'' : w < g.bins + 1 := by exact_mod_cast hw2'
    rw [hz, ht, hw] at hb
    rw [ratTrunc_intCast] at hb
    omega
  · rw [run_bead_of_invalid g dirs draw start i hv] at hok
    exact absurd hok (by simp)

/-- With a constant direction stream the walk's position does not depend on
the draw counter. -/
lemma walkS_fst_const (g : Galton) (d : ℚ) :
    ∀ (n : ℕ) (p : ℚ) (i i' : ℕ),
      (g.walkS (fun _ => d) n (p, i)).1 = (g.walkS (fun _ => d) n (p, i')).1
  | 0, _, _, _ => rfl
  | Nat.succ n, p, i, i' => by
    rw [walkS_succ, walkS_succ]
    exact walkS_fst_const g d n (g.move_down d p) (i + 1) (i' + 1)

/-- The walk is the left fold of `move_down` over the row indices, with the
`k`-th row consuming the direction sample at index `i + k`. -/
lemma walkS_fst_foldl (g : Galton) (dirs : ℕ → ℚ) :
    ∀ (n : ℕ) (p : ℚ) (i : ℕ),
      (g.walkS dirs n (p, i)).1
        = (List.range n).foldl (fun q k => g.move_down (dirs (i + k)) q) p
  | 0, p, i => by simp [walkS_zero]
  | Nat.succ n, p, i => by
    have hadd : Nat.succ n = n + 1 := rfl
    rw [hadd, walkS_add g dirs n 1 (p, i)]
    have hs : g.walkS dirs n (p, i) = ((g.walkS dirs n (p, i)).1, i + n) := by
      rw [← walkS_snd g dirs n p i]
    rw [hs, List.range_succ, List.foldl_append]
    simp only [List.foldl_cons, List.foldl_nil]
    rw [← walkS_fst_foldl g dirs n p i]
    rfl

/-- A successful `simulateAux` run returns one bin per remaining bead, each
produced by a successful `run_bead` call. -/
lemma simulateAux_ok_spec (g : Galton) (dirs binDraws : ℕ → ℚ)
    (start : Option ℚ) :
    ∀ (n k i : ℕ) (l : List ℤ) (j : ℕ),
      g.simulateAux dirs binDraws start n k i = Except.ok (l, j) →
      l.length = n ∧
        ∀ b ∈ l, ∃ kk ii jj,
          g.run_bead dirs (binDraws kk) start ii = Except.ok (b, jj)
  | 0, k, i, l, j, hok => by
    rw [Galton.simulateAux] at hok
    rw [Except.ok.injEq, Prod.mk.injEq] at hok
    obtain ⟨hl, hj⟩ := hok
    subst hl
    exact ⟨rfl, by intro b hb; cases hb⟩
  | Nat.succ n, k, i, l, j, hok => by
    rw [Galton.simulateAux] at hok
    cases hrb : g.run_bead dirs (binDraws k) start i with
    | error e =>
      rw [hrb] at hok
      exact absurd hok (by simp)
    | ok bj =>
      obtain ⟨b, j1⟩ := bj
      rw [hrb] at hok
      dsimp only at hok
      cases hrec : g.simulateAux dirs binDraws start n (k + 1) j1 with
      | error e =>
        rw [hrec] at hok
        exact absurd hok (by simp)
      | ok lj =>
        obtain ⟨l1, j2⟩ := lj
        rw [hrec] at hok
        dsimp only at hok
        rw [Except.ok.injEq, Prod.mk.injEq] at hok
        obtain ⟨hl, hj⟩ := hok
        subst hl
        obtain ⟨hlen, hmem⟩ :=
          simulateAux_ok_spec g dirs binDraws start n (k + 1) j1 l1 j2 hrec
        refine ⟨by simp [hlen], ?_⟩
        intro b2 hb2
        rcases List.mem_cons.mp hb2 with rfl | hb2
        · exact ⟨k, i, j1, hrb⟩
        · exact hmem b2 hb2

-- The all-left test scenario: `Galton(row_pairs=1, bins=2)` with
-- `random_bin` always `1` and `random_direction` always `-1/2`.

lemma run_bead_all_left (i : ℕ) :
    (mkGalton 1 2).run_bead (fun _ => -(1 / 2 : ℚ)) 1 none i
      = Except.ok (1, i + 2) := by
  have hv : (mkGalton 1 2).is_valid (resolveStart none 1) = true := by
    rw [is_valid_iff]
    constructor <;> norm_num [resolveStart, mkGalton]
  rw [run_bead_of_valid _ _ _ _ _ hv]
  have hrows : (mkGalton 1 2).rows = 2 := rfl
  rw [hrows]
  have hwalk : ((mkGalton 1 2).walkS (fun _ => -(1 / 2 : ℚ)) 2
      (resolveStart none 1, i)).1 = 1 := by
    show ((mkGalton 1 2).walkS (fun _ => -(1 / 2 : ℚ)) 0
      ((mkGalton 1 2).move_down (-(1 / 2))
        ((mkGalton 1 2).move_down (-(1 / 2)) 1), i + 1 + 1)).1 = 1
    norm_num [Galton.move_down, Galton.is_valid, mkGalton, walkS_zero]
  rw [hwalk]
  norm_num [ratTrunc, mkGalton]

lemma simulateAux_all_left :
    ∀ (n k i : ℕ),
      (mkGalton 1 2).simulateAux (fun _ => -(1 / 2 : ℚ)) (fun _ => 1) none n k i
        = Except.ok (List.replicate n 1, i + 2 * n)
  | 0, k, i => by
    rw [Galton.simulateAux]
    norm_num
  | Nat.succ n, k, i => by
    rw [Galton.simulateAux, run_bead_all_left i]
    dsimp only
    rw [simulateAux_all_left n (k + 1) (i + 2)]
    show Except.ok (1 :: List.replicate n 1, i + 2 + 2 * n) = _
    rw [← List.replicate_succ]
    have : i + 2 + 2 * n = i + 2 * (n + 1) := by omega
    rw [this]

lemma sum_count_length (l : List ℤ) :
    ∑ x ∈ l.toFinset, l.count x = l.length := by
  have h := Multiset.toFinset_sum_count_eq (l : Multiset ℤ)
  simp only [Multiset.coe_count, Multiset.coe_card] at h
  exact h

lemma resolveStart_none (draw : ℚ) : resolveStart none draw = draw := rfl

lemma resolveStart_some (s draw : ℚ) :
    resolveStart (some s) draw = if s = 0 then draw else s := rfl

/-- `run_bead` as the spec section 4.1 words it: resolve the start (use it
when given and non-zero, else the `random_bin` draw), fail with the
out-of-range error iff the resolved start is not valid, otherwise apply
`move_down` exactly `rows = 2 * row_pairs` times sequentially and return the
final position truncated toward zero. -/
def run_bead_spec (row_pairs : ℕ) (bins : ℤ) (dirs : ℕ → ℚ) (draw : ℚ)
    (start : Option ℚ) (i : ℕ) : Except String ℤ :=
  let p := match start with
    | none => draw
    | some s => if s = 0 then draw else s
  if 0 < p ∧ p < (bins : ℚ) + 1 then
    Except.ok (ratTrunc ((List.range (2 * row_pairs)).foldl
      (fun q k => (mkGalton row_pairs bins).move_down (dirs (i + k)) q) p))
  else
    Except.error "Bin position out of range"

/-!
Python-object view for the frame property: each method is modelled as
returning its result together with the receiver object after the call.  A
Python attribute assignment `self.x = v` would appear here as a structure
update `{ g with x := v }`; none of the method bodies of the source contains
one, so each call threads the receiver through unchanged, and the theorems
below prove that the final object equals the initial one.
-/

def Galton.is_valid_st (g : Galton) (p : ℚ) : Bool × Galton :=
  (g.is_valid p, g)

def Galton.move_down_st (g : Galton) (dirs : ℕ → ℚ) (p : ℚ) (i : ℕ) :
    (ℚ × ℕ) × Galton :=
  ((g.move_down (dirs i) p, i + 1), g)

def walkSt (dirs : ℕ → ℚ) : ℕ → (ℚ × ℕ) × Galton → (ℚ × ℕ) × Galton
  | 0, s => s
  | Nat.succ n, s => walkSt dirs n (s.2.move_down_st dirs s.1.1 s.1.2)

def Galton.run_bead_st (g : Galton) (dirs : ℕ → ℚ) (draw : ℚ)
    (start : Option ℚ) (i : ℕ) : Except String (ℤ × ℕ) × Galton :=
  let p := resolveStart start draw
  let r1 := g.is_valid_st p
  if r1.1 then
    let r2 := walkSt dirs r1.2.rows ((p, i), r1.2)
    (Except.ok (ratTrunc r2.1.1, r2.1.2), r2.2)
  else
    (Except.error "Bin position out of range", r1.2)

def simulateAuxSt (dirs binDraws : ℕ → ℚ) (start : Option ℚ) :
    ℕ → Galton → ℕ → ℕ → Except String (List ℤ × ℕ) × Galton
  | 0, g, _, i => (Except.ok ([], i), g)
  | Nat.succ n, g, k, i =>
    let r := g.run_bead_st dirs (binDraws k) start i
    match r.1 with
    | Except.error e => (Except.error e, r.2)
    | Except.ok (b, j) =>
      let rest := simulateAuxSt dirs binDraws start n r.2 (k + 1) j
      match rest.1 with
      | Except.error e => (Except.error e, rest.2)
      | Except.ok (l, j2) => (Except.ok (b :: l, j2), rest.2)

def Galton.simulate_st (g : Galton) (dirs binDraws : ℕ → ℚ) (beads : ℕ)
    (start : Option ℚ) : Except String (List ℤ × ℕ) × Galton :=
  simulateAuxSt dirs binDraws start beads g 0 0

lemma walkSt_snd (dirs : ℕ → ℚ) :
    ∀ (n : ℕ) (s : (ℚ × ℕ) × Galton), (walkSt dirs n s).2 = s.2
  | 0, _ => rfl
  | Nat.succ n, s => walkSt_snd dirs n (s.2.move_down_st dirs s.1.1 s.1.2)

lemma run_bead_st_snd (g : Galton) (dirs : ℕ → ℚ) (draw : ℚ)
    (start : Option ℚ) (i : ℕ) :
    (g.run_bead_st dirs draw start i).2 = g := by
  unfold Galton.run_bead_st
  by_cases hv : (g.is_valid_st (resolveStart start draw)).1 = true
  · rw [if_pos hv]
    exact walkSt_snd dirs _ _
  · rw [if_neg hv]
    rfl

lemma simulateAuxSt_snd (dirs binDraws : ℕ → ℚ) (start : Option ℚ) :
    ∀ (n : ℕ) (g : Galton) (k i : ℕ),
      (simulateAuxSt dirs binDraws start n g k i).2 = g
  | 0, _, _, _ => rfl
  | Nat.succ n, g, k, i => by
    rw [simulateAuxSt]
    dsimp only
    cases h1 : (g.run_bead_st dirs (binDraws k) start i).1 with
    | error e =>
      exact run_bead_st_snd g dirs (binDraws k) start i
    | ok bj =>
      obtain ⟨b, j⟩ := bj
      dsimp only
      cases h2 : (simulateAuxSt dirs binDraws start n
          (g.run_bead_st dirs (binDraws k) start i).2 (k + 1) j).1 with
      | error e =>
        dsimp only
        rw [simulateAuxSt_snd dirs binDraws start n _ (k + 1) j,
          run_bead_st_snd g dirs (binDraws k) start i]
      | ok lj =>
        obtain ⟨l, j2⟩ := lj
        dsimp only
        rw [simulateAuxSt_snd dirs binDraws start n _ (k + 1) j,
          run_bead_st_snd g dirs (binDraws k) start i]

-- ------------------------------------------------------------------
-- Claim theorems
-- ------------------------------------------------------------------

/-- C1 (counterexample): the claim says `run_bead(start=0)` fails with the
out-of-range error for every configuration.  It does not: Python's
`start or self.random_bin(self.bins)` treats `0` as absent, so with a
`random_bin` strategy returning the valid bin `1` the bead is simulated and
the call succeeds (here on the 1-row-pair, 2-bin board with all-right
directions it returns bin 2). -/
theorem claim_C1_counterexample :
    (mkGalton 1 2).run_bead (fun _ => (1 : ℚ) / 2) 1 (some 0) 0
      = Except.ok (2, 2) := by
  have hv : (mkGalton 1 2).is_valid (resolveStart (some 0) 1) = true := by
    rw [resolveStart_some, if_pos rfl, is_valid_iff]
    constructor <;> norm_num [mkGalton]
  rw [run_bead_of_valid _ _ _ _ _ hv]
  rw [resolveStart_some, if_pos rfl]
  have hrows : (mkGalton 1 2).rows = 2 := rfl
  rw [hrows]
  have hwalk : ((mkGalton 1 2).walkS (fun _ => (1 : ℚ) / 2) 2 ((1 : ℚ), 0)).1
      = 2 := by
    show ((mkGalton 1 2).walkS (fun _ => (1 : ℚ) / 2) 0
      ((mkGalton 1 2).move_down (1 / 2) ((mkGalton 1 2).move_down (1 / 2) 1),
        0 + 1 + 1)).1 = 2
    norm_num [Galton.move_down, Galton.is_valid, mkGalton, walkS_zero]
  rw [hwalk]
  have htr : ratTrunc 2 = 2 := by
    rw [show (2 : ℚ) = ((2 : ℤ) : ℚ) by norm_num, ratTrunc_intCast]
  rw [htr]

/-- C1 (amended): for any configuration with at least one bin,
`run_bead(start=bins+1)` fails with the out-of-range error (no bead is
simulated), while `run_bead(start=0)` is treated as an absent start: it
behaves exactly like `run_bead(start=None)`, drawing from `random_bin` and
failing only when that drawn position is invalid. -/
theorem claim_C1_amended (row_pairs : ℕ) (bins : ℤ) (h : 1 ≤ bins)
    (dirs : ℕ → ℚ) (draw : ℚ) (i : ℕ) :
    (mkGalton row_pairs bins).run_bead dirs draw (some ((bins : ℚ) + 1)) i
        = Except.error "Bin position out of range"
      ∧ (mkGalton row_pairs bins).run_bead dirs draw (some 0) i
        = (mkGalton row_pairs bins).run_bead dirs draw none i := by
  constructor
  · have h1 : (1 : ℚ) ≤ (bins : ℚ) := by exact_mod_cast h
    have hne : ((bins : ℚ) + 1) ≠ 0 := by
      intro h0
      linarith
    have hres : resolveStart (some ((bins : ℚ) + 1)) draw = (bins : ℚ) + 1 := by
      rw [resolveStart_some, if_neg hne]
    apply run_bead_of_invalid
    rw [hres, is_valid_iff]
    push_neg
    intro h0
    exact le_refl _
  · have hres : resolveStart (some (0 : ℚ)) draw = resolveStart none draw := by
      rw [resolveStart_some, if_pos rfl, resolveStart_none]
    unfold Galton.run_bead
    rw [hres]

/-- C1 (witness for the amended theorem), at `row_pairs = 1`, `bins = 1`,
all-right directions, `random_bin` returning `1`. -/
theorem claim_C1_amended_witness :
    (1 : ℤ) ≤ 1
      ∧ ((mkGalton 1 1).run_bead (fun _ => (1 : ℚ) / 2) 1
            (some (((1 : ℤ) : ℚ) + 1)) 0
          = Except.error "Bin position out of range"
        ∧ (mkGalton 1 1).run_bead (fun _ => (1 : ℚ) / 2) 1 (some 0) 0
          = (mkGalton 1 1).run_bead (fun _ => (1 : ℚ) / 2) 1 none 0) :=
  ⟨le_refl 1, claim_C1_amended 1 1 (le_refl 1) (fun _ => (1 : ℚ) / 2) 1 0⟩

/-- C2: on a board with at least one bin, `move_down` maps any valid
position and any direction draw in `{-1/2, +1/2}` to a valid position: the
walk never leaves the open interval `(0, bins + 1)`. -/
theorem claim_C2_boundary_containment (g : Galton) (h : 1 ≤ g.bins)
    (p d : ℚ) (hp : g.is_valid p = true)
    (hd : d = 1 / 2 ∨ d = -(1 / 2)) :
    g.is_valid (g.move_down d p) = true :=
  move_down_valid_aux g h d p hp hd

/-- C2 (witness): board `row_pairs = 1`, `bins = 2`, position `1`,
direction `+1/2`. -/
theorem claim_C2_witness :
    1 ≤ (mkGalton 1 2).bins
      ∧ (mkGalton 1 2).is_valid 1 = true
      ∧ ((1 : ℚ) / 2 = 1 / 2 ∨ (1 : ℚ) / 2 = -(1 / 2))
      ∧ (mkGalton 1 2).is_valid ((mkGalton 1 2).move_down (1 / 2) 1) = true :=
  ⟨by norm_num [mkGalton],
    by rw [is_valid_iff]; constructor <;> norm_num [mkGalton],
    Or.inl rfl,
    claim_C2_boundary_containment (mkGalton 1 2) (by norm_num [mkGalton]) 1
      (1 / 2)
      (by rw [is_valid_iff]; constructor <;> norm_num [mkGalton])
      (Or.inl rfl)⟩

/-- C3: from a whole-bin starting position, after the even number
`rows = 2 * row_pairs` of `move_down` steps with draws in `{-1/2, +1/2}`
the position is exactly an integer, and the final truncation toward zero
returns it unchanged. -/
theorem claim_C3_integer_terminal (row_pairs : ℕ) (bins : ℤ) (z : ℤ)
    (dirs : ℕ → ℚ) (i : ℕ)
    (_hz : (mkGalton row_pairs bins).is_valid ((z : ℚ)) = true)
    (hd : ∀ j, dirs j = 1 / 2 ∨ dirs j = -(1 / 2)) :
    ∃ w : ℤ,
      ((mkGalton row_pairs bins).walkS dirs (mkGalton row_pairs bins).rows
          (((z : ℚ), i))).1 = (w : ℚ)
        ∧ ratTrunc (((mkGalton row_pairs bins).walkS dirs
            (mkGalton row_pairs bins).rows (((z : ℚ), i))).1) = w := by
  obtain ⟨w, hw⟩ :=
    walkS_int_of_even (mkGalton row_pairs bins) dirs hd row_pairs z i
  refine ⟨w, hw, ?_⟩
  have hrows : (mkGalton row_pairs bins).rows = row_pairs * 2 := rfl
  rw [hrows, hw, ratTrunc_intCast]

/-- C3 (witness): start at bin `1` of the 1-row-pair, 2-bin board with
all-right direction draws. -/
theorem claim_C3_witness :
    (mkGalton 1 2).is_valid (((1 : ℤ) : ℚ)) = true
      ∧ (∀ j : ℕ, (fun _ : ℕ => (1 : ℚ) / 2) j = 1 / 2
          ∨ (fun _ : ℕ => (1 : ℚ) / 2) j = -(1 / 2))
      ∧ ∃ w : ℤ,
          ((mkGalton 1 2).walkS (fun _ => (1 : ℚ) / 2) (mkGalton 1 2).rows
              ((((1 : ℤ) : ℚ), 0))).1 = (w : ℚ)
            ∧ ratTrunc (((mkGalton 1 2).walkS (fun _ => (1 : ℚ) / 2)
                (mkGalton 1 2).rows ((((1 : ℤ) : ℚ), 0))).1) = w :=
  ⟨by rw [is_valid_iff]; constructor <;> norm_num [mkGalton],
    fun _ => Or.inl rfl,
    claim_C3_integer_terminal 1 2 1 (fun _ => (1 : ℚ) / 2) 0
      (by rw [is_valid_iff]; constructor <;> norm_num [mkGalton])
      (fun _ => Or.inl rfl)⟩

/-- C5: `move_down` with drawn direction `d` returns `p + d` when that
tentative position is valid and `p - d` (the tentative value minus `2 d`)
otherwise, and it consumes exactly one direction sample whether or not the
reflection occurs. -/
theorem claim_C5_move_down_step (g : Galton) (dirs : ℕ → ℚ) (d p : ℚ)
    (i : ℕ) :
    g.move_down d p = (if g.is_valid (p + d) then p + d else p - d)
      ∧ p - d = (p + d) - 2 * d
      ∧ (g.move_down_draw dirs p i).1 = g.move_down (dirs i) p
      ∧ (g.move_down_draw dirs p i).2 = i + 1 := by
  refine ⟨?_, by ring, rfl, rfl⟩
  unfold Galton.move_down
  by_cases hv : g.is_valid (p + d) = true
  · rw [if_pos hv, if_pos hv]
  · rw [if_neg hv, if_neg hv]
    ring

/-- C4 (counterexample): the claim asserts that every key of the tally of a
completed `simulate` run lies in `[1, bins]`.  With the fractional (and
valid, hence accepted) start `1/2` on a 1-bin board and all-left
directions, the single bead completes without error and lands in key `0`. -/
theorem claim_C4_counterexample :
    (mkGalton 1 1).simulate (fun _ => -(1 / 2 : ℚ)) (fun _ => 1) 1
        (some (1 / 2))
      = Except.ok ([0], 2)
      ∧ ¬ (∀ b ∈ ([0] : List ℤ), 1 ≤ b ∧ b ≤ (1 : ℤ)) := by
  constructor
  · have hv : (mkGalton 1 1).is_valid (resolveStart (some (1 / 2)) 1) = true := by
      rw [resolveStart_some, if_neg (by norm_num), is_valid_iff]
      constructor <;> norm_num [mkGalton]
    have hrb : (mkGalton 1 1).run_bead (fun _ => -(1 / 2 : ℚ)) 1
        (some (1 / 2)) 0 = Except.ok (0, 2) := by
      rw [run_bead_of_valid _ _ _ _ _ hv]
      rw [resolveStart_some, if_neg (by norm_num)]
      have hrows : (mkGalton 1 1).rows = 2 := rfl
      rw [hrows]
      have hwalk : ((mkGalton 1 1).walkS (fun _ => -(1 / 2 : ℚ)) 2
          ((1 / 2 : ℚ), 0)).1 = 1 / 2 := by
        show ((mkGalton 1 1).walkS (fun _ => -(1 / 2 : ℚ)) 0
          ((mkGalton 1 1).move_down (-(1 / 2))
            ((mkGalton 1 1).move_down (-(1 / 2)) (1 / 2)), 0 + 1 + 1)).1 = 1 / 2
        norm_num [Galton.move_down, Galton.is_valid, mkGalton, walkS_zero]
      rw [hwalk]
      have htr : ratTrunc (1 / 2) = 0 := by
        have hnum : ((1 : ℚ) / 2).num = 1 := by norm_num
        have hden : ((1 : ℚ) / 2).den = 2 := by norm_num
        show Int.tdiv ((1 : ℚ) / 2).num (((1 : ℚ) / 2).den : ℤ) = 0
        rw [hnum, hden]
        rfl
      rw [htr]
    show (mkGalton 1 1).simulateAux (fun _ => -(1 / 2 : ℚ)) (fun _ => 1)
        (some (1 / 2)) 1 0 0 = Except.ok ([0], 2)
    rw [Galton.simulateAux, hrb]
    dsimp only
    rw [Galton.simulateAux]
  · intro hall
    have := hall 0 (by simp)
    omega

/-- C4 (amended): for every completed `simulate` run, the sum of the tally
counts equals `beads`; and provided the board has at least one bin, the
direction draws are half-steps, and every start value and every `random_bin`
draw is a whole-bin integer, every key of the tally lies in `[1, bins]`. -/
theorem claim_C4_tally (row_pairs : ℕ) (bins : ℤ) (dirs binDraws : ℕ → ℚ)
    (start : Option ℚ) (beads : ℕ) (l : List ℤ) (j : ℕ)
    (hok : (mkGalton row_pairs bins).simulate dirs binDraws beads start
        = Except.ok (l, j)) :
    (∑ x ∈ l.toFinset, l.count x) = beads
      ∧ (1 ≤ bins →
          (∀ jj, dirs jj = 1 / 2 ∨ dirs jj = -(1 / 2)) →
          (∀ k, ∃ z : ℤ, binDraws k = (z : ℚ)) →
          (∀ s₀, start = some s₀ → ∃ z : ℤ, s₀ = (z : ℚ)) →
          ∀ b ∈ l, 1 ≤ b ∧ b ≤ bins) := by
  obtain ⟨hlen, hmem⟩ := simulateAux_ok_spec (mkGalton row_pairs bins) dirs
    binDraws start beads 0 0 l j hok
  refine ⟨by rw [sum_count_length, hlen], ?_⟩
  intro hb hdir hbin hstart b hbl
  obtain ⟨kk, ii, jj, hrb⟩ := hmem b hbl
  have hresolved : ∃ z : ℤ, resolveStart start (binDraws kk) = (z : ℚ) := by
    cases start with
    | none => exact hbin kk
    | some s₀ =>
      rw [resolveStart_some]
      by_cases h0 : s₀ = 0
      · rw [if_pos h0]
        exact hbin kk
      · rw [if_neg h0]
        exact hstart s₀ rfl
  exact run_bead_ok_range (mkGalton row_pairs bins) hb ⟨row_pairs, rfl⟩ dirs
    hdir (binDraws kk) start ii b jj hresolved hrb

/-- C4 (witness): one bead on the 1-row-pair, 2-bin board, all-left
directions, `random_bin` returning `1`, no explicit start. -/
theorem claim_C4_witness :
    (mkGalton 1 2).simulate (fun _ => -(1 / 2 : ℚ)) (fun _ => 1) 1 none
        = Except.ok ([1], 2)
      ∧ ((∑ x ∈ ([1] : List ℤ).toFinset, ([1] : List ℤ).count x) = 1
        ∧ (1 ≤ (2 : ℤ) →
            (∀ jj, (fun _ : ℕ => -(1 / 2 : ℚ)) jj = 1 / 2
              ∨ (fun _ : ℕ => -(1 / 2 : ℚ)) jj = -(1 / 2)) →
            (∀ k, ∃ z : ℤ, (fun _ : ℕ => (1 : ℚ)) k = (z : ℚ)) →
            (∀ s₀, (none : Option ℚ) = some s₀ → ∃ z : ℤ, s₀ = (z : ℚ)) →
            ∀ b ∈ ([1] : List ℤ), 1 ≤ b ∧ b ≤ (2 : ℤ))) := by
  have hok : (mkGalton 1 2).simulate (fun _ => -(1 / 2 : ℚ)) (fun _ => 1) 1 none
      = Except.ok ([1], 2) := by
    show (mkGalton 1 2).simulateAux (fun _ => -(1 / 2 : ℚ)) (fun _ => 1)
        none 1 0 0 = Except.ok ([1], 2)
    rw [Galton.simulateAux, run_bead_all_left 0]
    dsimp only
    rw [Galton.simulateAux]
  exact ⟨hok, claim_C4_tally 1 2 (fun _ => -(1 / 2 : ℚ)) (fun _ => 1) none 1
    [1] 2 hok⟩

/-- C6: `run_bead` behaves exactly as the spec describes it: it resolves the
start (using a given non-zero start, else the `random_bin` draw), raises the
out-of-range error iff the resolved start fails `is_valid`, and otherwise
applies `move_down` exactly `rows = 2 * row_pairs` times sequentially and
returns the final position truncated toward zero. -/
theorem claim_C6_run_bead_spec (row_pairs : ℕ) (bins : ℤ) (dirs : ℕ → ℚ)
    (draw : ℚ) (start : Option ℚ) (i : ℕ) :
    binResult ((mkGalton row_pairs bins).run_bead dirs draw start i)
        = run_bead_spec row_pairs bins dirs draw start i
      ∧ (∀ e, (mkGalton row_pairs bins).run_bead dirs draw start i
            = Except.error e
          ↔ (¬ (mkGalton row_pairs bins).is_valid (resolveStart start draw)
                = true
              ∧ e = "Bin position out of range")) := by
  have hspec : run_bead_spec row_pairs bins dirs draw start i
      = (if 0 < resolveStart start draw
            ∧ resolveStart start draw < (bins : ℚ) + 1 then
          Except.ok (ratTrunc ((List.range (2 * row_pairs)).foldl
            (fun q k => (mkGalton row_pairs bins).move_down (dirs (i + k)) q)
            (resolveStart start draw)))
        else Except.error "Bin position out of range") := rfl
  by_cases hv : (mkGalton row_pairs bins).is_valid (resolveStart start draw)
      = true
  · have hp := (is_valid_iff _ _).mp hv
    constructor
    · rw [hspec, run_bead_of_valid _ _ _ _ _ hv,
        if_pos (show 0 < resolveStart start draw
          ∧ resolveStart start draw < (bins : ℚ) + 1 from hp)]
      show Except.ok (ratTrunc ((mkGalton row_pairs bins).walkS dirs
        (mkGalton row_pairs bins).rows (resolveStart start draw, i)).1) = _
      have hrows : (mkGalton row_pairs bins).rows = 2 * row_pairs := by
        show row_pairs * 2 = 2 * row_pairs
        ring
      rw [← hrows, walkS_fst_foldl]
    · intro e
      rw [run_bead_of_valid _ _ _ _ _ hv]
      simp only [reduceCtorEq, false_iff, not_and]
      intro hcon
      exact absurd hv hcon
  · constructor
    · rw [hspec, run_bead_of_invalid _ _ _ _ _ hv,
        if_neg (show ¬ (0 < resolveStart start draw
            ∧ resolveStart start draw < (bins : ℚ) + 1) from
          fun hcon => hv ((is_valid_iff _ _).mpr hcon))]
      rfl
    · intro e
      rw [run_bead_of_invalid _ _ _ _ _ hv]
      constructor
      · intro he
        rw [Except.error.injEq] at he
        exact ⟨hv, he.symm⟩
      · intro ⟨_, he⟩
        rw [he]

/-- C7: on the 1-row-pair, 2-bin board with `random_bin` always returning
`1` and `random_direction` always returning `-1/2`, simulating 100000 beads
with no explicit start returns a tally sending bin 1 to 100000 with no
other key present. -/
theorem claim_C7_all_left :
    ∃ (l : List ℤ) (j : ℕ),
      (mkGalton 1 2).simulate (fun _ => -(1 / 2 : ℚ)) (fun _ => 1) 100000 none
          = Except.ok (l, j)
        ∧ l.count 1 = 100000
        ∧ ∀ x : ℤ, x ≠ 1 → l.count x = 0 := by
  refine ⟨List.replicate 100000 1, 2 * 100000, ?_, ?_, ?_⟩
  · show (mkGalton 1 2).simulateAux (fun _ => -(1 / 2 : ℚ)) (fun _ => 1)
        none 100000 0 0 = Except.ok (List.replicate 100000 1, 2 * 100000)
    rw [simulateAux_all_left 100000 0 0]
  · rw [List.count_replicate]
    simp
  · intro x hx
    rw [List.count_replicate]
    simp [hx]
    exact fun h => hx h.symm

/-- C8: with fixed (constant) injected strategies, two calls of `run_bead`
with the same start value return the same terminal bin, regardless of how
many direction draws were consumed before each call. -/
theorem claim_C8_determinism (g : Galton) (d draw : ℚ) (start : Option ℚ)
    (i i' : ℕ) :
    binResult (g.run_bead (fun _ => d) draw start i)
      = binResult (g.run_bead (fun _ => d) draw start i') := by
  by_cases hv : g.is_valid (resolveStart start draw) = true
  · rw [run_bead_of_valid _ _ _ _ _ hv, run_bead_of_valid _ _ _ _ _ hv]
    unfold binResult
    simp only [Except.map]
    rw [walkS_fst_const g d g.rows (resolveStart start draw) i i']
  · rw [run_bead_of_invalid _ _ _ _ _ hv, run_bead_of_invalid _ _ _ _ _ hv]

/-- C9: no operation mutates the board configuration: `is_valid`,
`move_down`, `run_bead` and `simulate`, modelled as Python method calls
returning the receiver's post-call state, all leave the `Galton` object
exactly as constructed. -/
theorem claim_C9_no_mutation (g : Galton) (dirs binDraws : ℕ → ℚ)
    (p draw : ℚ) (start : Option ℚ) (i beads : ℕ) :
    (g.is_valid_st p).2 = g
      ∧ (g.move_down_st dirs p i).2 = g
      ∧ (g.run_bead_st dirs draw start i).2 = g
      ∧ (g.simulate_st dirs binDraws beads start).2 = g :=
  ⟨rfl, rfl, run_bead_st_snd g dirs draw start i,
    simulateAuxSt_snd dirs binDraws start beads g 0 0⟩

/-- C10 (counterexample): the claim asserts that for every non-integer
in-range start the position after the even number of rows is a half-integer.
With start `4/3` (non-integer, in range, accepted without error) and
all-right directions on the 1-row-pair, 2-bin board, the final position is
`7/3`, which is not a half-integer. -/
theorem claim_C10_counterexample :
    (mkGalton 1 2).run_bead (fun _ => (1 : ℚ) / 2) 1 (some (4 / 3)) 0
        = Except.ok (2, 2)
      ∧ ((mkGalton 1 2).walkS (fun _ => (1 : ℚ) / 2) 2 ((4 / 3 : ℚ), 0)).1
        = 7 / 3
      ∧ ¬ ∃ m : ℤ, (7 / 3 : ℚ) = (m : ℚ) / 2 := by
  have hwalk : ((mkGalton 1 2).walkS (fun _ => (1 : ℚ) / 2) 2
      ((4 / 3 : ℚ), 0)).1 = 7 / 3 := by
    show ((mkGalton 1 2).walkS (fun _ => (1 : ℚ) / 2) 0
      ((mkGalton 1 2).move_down (1 / 2)
        ((mkGalton 1 2).move_down (1 / 2) (4 / 3)), 0 + 1 + 1)).1 = 7 / 3
    norm_num [Galton.move_down, Galton.is_valid, mkGalton, walkS_zero]
  refine ⟨?_, hwalk, ?_⟩
  · have hv : (mkGalton 1 2).is_valid (resolveStart (some (4 / 3)) 1)
        = true := by
      rw [resolveStart_some, if_neg (by norm_num), is_valid_iff]
      constructor <;> norm_num [mkGalton]
    rw [run_bead_of_valid _ _ _ _ _ hv]
    rw [resolveStart_some, if_neg (by norm_num)]
    have hrows : (mkGalton 1 2).rows = 2 := rfl
    rw [hrows, hwalk]
    have htr : ratTrunc (7 / 3) = 2 := by
      have hnum : ((7 : ℚ) / 3).num = 7 := by norm_num
      have hden : ((7 : ℚ) / 3).den = 3 := by norm_num
      show Int.tdiv ((7 : ℚ) / 3).num (((7 : ℚ) / 3).den : ℤ) = 2
      rw [hnum, hden]
      rfl
    rw [htr]
  · rintro ⟨m, hm⟩
    have h2 : (3 : ℚ) * (m : ℚ) = 14 := by linarith
    have h3 : (3 : ℤ) * m = 14 := by exact_mod_cast h2
    omega

/-- C10 (amended): `run_bead` never checks that a supplied start is a
whole-bin value: every non-integer start strictly between `0` and
`bins + 1` is accepted without error and the final walk position truncated
toward zero is returned; moreover, when the start is a half-integer (an odd
multiple of `1/2`), the position after the even number of rows is again a
half-integer. -/
theorem claim_C10_amended (row_pairs : ℕ) (bins : ℤ) (dirs : ℕ → ℚ)
    (draw s : ℚ) (i : ℕ)
    (hs : ¬ ∃ z : ℤ, s = (z : ℚ)) (h1 : 0 < s) (h2 : s < (bins : ℚ) + 1)
    (hd : ∀ j, dirs j = 1 / 2 ∨ dirs j = -(1 / 2)) :
    (mkGalton row_pairs bins).run_bead dirs draw (some s) i
        = Except.ok
            (ratTrunc (((mkGalton row_pairs bins).walkS dirs
                (mkGalton row_pairs bins).rows ((s, i))).1),
              i + (mkGalton row_pairs bins).rows)
      ∧ ∀ k : ℤ, s = ((2 * k + 1 : ℤ) : ℚ) / 2 →
          ∃ m : ℤ,
            ((mkGalton row_pairs bins).walkS dirs
                (mkGalton row_pairs bins).rows ((s, i))).1
              = ((2 * m + 1 : ℤ) : ℚ) / 2 := by
  have hs0 : s ≠ 0 := by
    intro h0
    exact hs ⟨0, by rw [h0]; norm_num⟩
  have hres : resolveStart (some s) draw = s := by
    rw [resolveStart_some, if_neg hs0]
  constructor
  · have hv : (mkGalton row_pairs bins).is_valid (resolveStart (some s) draw)
        = true := by
      rw [hres, is_valid_iff]
      exact ⟨h1, h2⟩
    rw [run_bead_of_valid _ _ _ _ _ hv, hres]
  · intro k hk
    obtain ⟨mf, hmf, hpar⟩ := walkS_parity (mkGalton row_pairs bins) dirs hd
      (row_pairs * 2) s i (2 * k + 1)
      (by rw [hk]; push_cast; ring)
    have hrows : (mkGalton row_pairs bins).rows = row_pairs * 2 := rfl
    have heven : ((row_pairs * 2 : ℕ) : ℤ) % 2 = 0 := by push_cast; omega
    have hodd : mf % 2 = 1 := by omega
    obtain ⟨m, hm2⟩ : ∃ m : ℤ, mf = 2 * m + 1 := ⟨(mf - 1) / 2, by omega⟩
    refine ⟨m, ?_⟩
    rw [hrows]
    rw [hm2] at hmf
    have hcast : ((2 * m + 1 : ℤ) : ℚ) = 2 * (m : ℚ) + 1 := by
      push_cast
      ring
    rw [hcast] at hmf
    rw [hcast]
    linarith

/-- C10 (witness for the amended theorem): start `3/2` on the 1-row-pair,
2-bin board with all-right directions. -/
theorem claim_C10_amended_witness :
    (¬ ∃ z : ℤ, (3 / 2 : ℚ) = (z : ℚ))
      ∧ (0 : ℚ) < 3 / 2
      ∧ (3 / 2 : ℚ) < ((2 : ℤ) : ℚ) + 1
      ∧ (∀ j : ℕ, (fun _ : ℕ => (1 : ℚ) / 2) j = 1 / 2
          ∨ (fun _ : ℕ => (1 : ℚ) / 2) j = -(1 / 2))
      ∧ ((mkGalton 1 2).run_bead (fun _ => (1 : ℚ) / 2) 1 (some (3 / 2)) 0
            = Except.ok
                (ratTrunc (((mkGalton 1 2).walkS (fun _ => (1 : ℚ) / 2)
                    (mkGalton 1 2).rows (((3 / 2 : ℚ), 0))).1),
                  0 + (mkGalton 1 2).rows)
          ∧ ∀ k : ℤ, (3 / 2 : ℚ) = ((2 * k + 1 : ℤ) : ℚ) / 2 →
              ∃ m : ℤ,
                ((mkGalton 1 2).walkS (fun _ => (1 : ℚ) / 2)
                    (mkGalton 1 2).rows (((3 / 2 : ℚ), 0))).1
                  = ((2 * m + 1 : ℤ) : ℚ) / 2) := by
  have hnon : ¬ ∃ z : ℤ, (3 / 2 : ℚ) = (z : ℚ) := by
    rintro ⟨z, hz⟩
    have h3 : (3 : ℚ) = 2 * (z : ℚ) := by linarith
    have h4 : (3 : ℤ) = 2 * z := by exact_mod_cast h3
    omega
  refine ⟨hnon, by norm_num, by push_cast; norm_num, fun _ => Or.inl rfl, ?_⟩
  exact claim_C10_amended 1 2 (fun _ => (1 : ℚ) / 2) 1 (3 / 2) 0 hnon
    (by norm_num) (by push_cast; norm_num) (fun _ => Or.inl rfl)
